import Mathlib

/-!
Verification of the MCQ quiz grading engine and session state machine
(`quiz_app.py`).  Text cells loaded from the spreadsheet are modelled as
`Cell := Option String`, where `none` stands for a missing value (pandas
`NaN` / Python `None`); `pd.isna` is the `none` test and `str(...)` on a
missing cell renders `"nan"`.  Python floats for wall-clock times and
match scores are modelled as exact rationals.
-/

/-- A spreadsheet cell: `none` is a missing value (`NaN`). -/
def Cell : Type := Option String

instance : DecidableEq Cell := by unfold Cell; infer_instance

/-- Python `str(...)` applied to a cell: a missing value prints as `"nan"`. -/
def cellStr : Cell → String
  | none => "nan"
  | some t => t

/-- Characters treated as whitespace by Python `str.strip()` / `str.split()`
and by the regex class `\s` (space, tab, newline, carriage return,
vertical tab, form feed). -/
def isSp (c : Char) : Bool :=
  c = ' ' || c = '\t' || c = '\n' || c = '\r' || c = Char.ofNat 11 || c = Char.ofNat 12

/-- Drop leading whitespace. -/
def ldrop (l : List Char) : List Char := l.dropWhile isSp

/-- Drop trailing whitespace. -/
def rdrop (l : List Char) : List Char := (l.reverse.dropWhile isSp).reverse

/-- Python `str.strip()`. -/
def pyStrip (l : List Char) : List Char := rdrop (ldrop l)

/-- Python `str.upper()` (ASCII, as used on option letters). -/
def pyUpper (l : List Char) : List Char := l.map Char.toUpper

/-- The characters removed by `rstrip('.,;:')` in `normalize_text`. -/
def isPunct (c : Char) : Bool := c = '.' || c = ',' || c = ';' || c = ':'

/-- Python `rstrip('.,;:')`. -/
def rstripPunct (l : List Char) : List Char := (l.reverse.dropWhile isPunct).reverse

/-- Python `str.split()` (split on whitespace runs, dropping empty parts),
with an accumulator holding the reversed word in progress. -/
def wordsAux : List Char → List Char → List (List Char)
  | [], acc => if acc.isEmpty then [] else [acc.reverse]
  | c :: rest, acc =>
    if isSp c then
      (if acc.isEmpty then wordsAux rest [] else acc.reverse :: wordsAux rest [])
    else wordsAux rest (c :: acc)

/-- Python `" ".join(ws)`. -/
def joinSp : List (List Char) → List Char
  | [] => []
  | [w] => w
  | w :: ws => w ++ ' ' :: joinSp ws

/-- The character-list body of `normalize_text`: strip, lowercase, collapse
internal whitespace runs to single spaces, strip trailing `.,;:`. -/
def normList (l : List Char) : List Char :=
  rstripPunct (joinSp (wordsAux ((pyStrip l).map Char.toLower) []))

/-- Function `normalize_text` from `quiz_app.py`: a missing cell (`pd.isna`) yields
`""`; otherwise strip, lowercase, collapse whitespace, `rstrip('.,;:')`. -/
def normalize_text (c : Cell) : String :=
  match c with
  | none => ""
  | some s => ⟨normList s.data⟩

/-- The four option letters. -/
inductive Letter : Type
  | A | B | C | D
deriving DecidableEq, Repr

/-- The letter as the one-character string the Python code manipulates. -/
def letterStr : Letter → String
  | .A => "A" | .B => "B" | .C => "C" | .D => "D"

/-- Iteration order `["A", "B", "C", "D"]` used by the resolution loops. -/
def letters : List Letter := [.A, .B, .C, .D]

/-- The capture group of the regexes in `extract_letter`: a single character
`A`–`D`, or nothing. -/
def letterOfChar (c : Char) : Option Letter :=
  if c = 'A' then some .A
  else if c = 'B' then some .B
  else if c = 'C' then some .C
  else if c = 'D' then some .D
  else none

/-- One attempt of `re.search(r"OPTION\s*([A-D])", s)` at the current
position: the literal `OPTION`, then a whitespace run, then a letter. -/
def optionAt (cs : List Char) : Option Letter :=
  if ("OPTION".data).isPrefixOf cs then
    match (cs.drop 6).dropWhile isSp with
    | c :: _ => letterOfChar c
    | [] => none
  else none

/-- Python `re.search(r"OPTION\s*([A-D])", s)`: leftmost position where the
pattern matches. -/
def optionScan : List Char → Option Letter
  | [] => none
  | c :: rest =>
    match optionAt (c :: rest) with
    | some l => some l
    | none => optionScan rest

/-- Function `extract_letter` from `quiz_app.py`.  After `str(s).strip().upper()`:
a bare letter `A`–`D`; else `re.match(r"^([A-D])[\.\:\)\-\s]*", s)` —
whose character class is starred, so it succeeds whenever the first
character is in `A`–`D`; else `re.search(r"OPTION\s*([A-D])", s)`. -/
def extract_letter (c : Cell) : Option Letter :=
  match c with
  | none => none
  | some s =>
    let sStr := pyUpper (pyStrip s.data)
    if sStr = ['A'] then some .A
    else if sStr = ['B'] then some .B
    else if sStr = ['C'] then some .C
    else if sStr = ['D'] then some .D
    else
      match sStr with
      | ch :: _ =>
        match letterOfChar ch with
        | some l => some l
        | none => optionScan sStr
      | [] => optionScan sStr

/-- One row of the quiz DataFrame.  `read_quiz_df` guarantees that the
columns `Question`, `Option A`..`Option D`, `Correct Answer` and `Hint`
are all present, so an absent option is a `NaN` cell, not a missing
column. -/
structure Row where
  question : Cell
  optionA : Cell
  optionB : Cell
  optionC : Cell
  optionD : Cell
  correctRaw : Cell
  hint : Cell
  rationale : Cell
deriving DecidableEq

/-- Row lookup `row.get(f"Option {letter}")`. -/
def Row.option (r : Row) : Letter → Cell
  | .A => r.optionA
  | .B => r.optionB
  | .C => r.optionC
  | .D => r.optionD

/-- Python `needle in hay` on strings: substring containment. -/
def pyIn (needle hay : String) : Bool :=
  hay.data.tails.any (fun suf => needle.data.isPrefixOf suf)

/-- The loop body test of the first (exact) pass of `find_correct_letter`:
option present (`pd.notna`) and normalized texts equal. -/
def exactMatches (r : Row) (l : Letter) : Bool :=
  match r.option l with
  | none => false
  | some t => normalize_text (some t) == normalize_text r.correctRaw

/-- First pass of `find_correct_letter`: the `for letter in ["A","B","C","D"]`
loop returning the first exact normalized-text match. -/
def exactPass (r : Row) : Option Letter :=
  if exactMatches r .A then some .A
  else if exactMatches r .B then some .B
  else if exactMatches r .C then some .C
  else if exactMatches r .D then some .D
  else none

/-- One iteration of the second (substring) pass of `find_correct_letter`,
updating `(best_match, best_match_score)`.  Scores are length ratios,
kept as exact rationals. -/
def fuzzyStep (r : Row) (acc : Option Letter × ℚ) (l : Letter) : Option Letter × ℚ :=
  match r.option l with
  | none => acc
  | some t =>
    let optN := normalize_text (some t)
    let corrN := normalize_text r.correctRaw
    if pyIn corrN optN then
      let score : ℚ := (corrN.length : ℚ) / (optN.length : ℚ)
      if score > acc.2 then (some l, score) else acc
    else if pyIn optN corrN then
      let score : ℚ := (optN.length : ℚ) / (corrN.length : ℚ)
      if score > acc.2 then (some l, score) else acc
    else acc

/-- The complete second pass over `["A","B","C","D"]`, starting from
`best_match = None`, `best_match_score = 0`. -/
def fuzzyPass (r : Row) : Option Letter × ℚ :=
  fuzzyStep r (fuzzyStep r (fuzzyStep r (fuzzyStep r (none, 0) .A) .B) .C) .D

/-- Function `find_correct_letter` from `quiz_app.py`: letter extracted from the
`Correct Answer` cell if any; else the exact-match pass; else the
substring pass, accepted only above the `0.9` score threshold. -/
def find_correct_letter (r : Row) : Option Letter :=
  match extract_letter r.correctRaw with
  | some l => some l
  | none =>
    match exactPass r with
    | some l => some l
    | none =>
      let res := fuzzyPass r
      match res.1 with
      | some l => if res.2 > (9 : ℚ) / 10 then some l else none
      | none => none

/-- Python `selected.split(":", 1)[0]`. -/
def beforeColon : List Char → List Char
  | [] => []
  | c :: cs => if c = ':' then [] else c :: beforeColon cs

/-- Python `selected.split(":", 1)[1]` (only evaluated under an `":" in selected`
guard in the source). -/
def afterColon : List Char → List Char
  | [] => []
  | c :: cs => if c = ':' then cs else afterColon cs

/-- Python `':' in s`. -/
def containsChar (l : List Char) (c : Char) : Bool := l.any (· = c)

/-- Function `is_correct` from `quiz_app.py`.  `selected` is the radio string
`"X: text"` or `None`; falsy selections grade `false`.  With a letter in
the correct-answer cell, letters are compared; otherwise the text after
the colon is compared to the cell under `normalize_text`. -/
def is_correct (selected : Option String) (correctRaw : Cell) : Bool :=
  match selected with
  | none => false
  | some sel =>
    if sel.data.isEmpty then false
    else
      let selLetter := pyUpper (pyStrip (beforeColon sel.data))
      match extract_letter correctRaw with
      | some cl => selLetter == (letterStr cl).data
      | none =>
        if containsChar sel.data ':' then
          let selText := pyStrip (afterColon sel.data)
          normalize_text (some ⟨selText⟩) == normalize_text correctRaw
        else false

/-- The option string offered by the radio widget:
`f"{letter}: {text}"` from `display_options`. -/
def selDisplay (l : Letter) (t : String) : String :=
  letterStr l ++ ": " ++ t

/-- Record with options A `"Paris"`, B `"Rome"` and correct cell `"B"`. -/
def rowPR : Row :=
  { question := some "Capital of France?", optionA := some "Paris", optionB := some "Rome"
    optionC := none, optionD := none, correctRaw := some "B", hint := none, rationale := none }

/-- Record with correct cell `"Rome"` (no extractable letter) matching
option B `"Rome."` exactly after normalization. -/
def rowRome : Row :=
  { question := none, optionA := some "Paris", optionB := some "Rome."
    optionC := none, optionD := none, correctRaw := some "Rome", hint := none, rationale := none }

/-- Record whose correct cell `"xyzabcdefg"` (no extractable letter,
no exact match) is a 10-of-11-character prefix of option A's text. -/
def rowFuzz : Row :=
  { question := none, optionA := some "xyzabcdefgh", optionB := none
    optionC := none, optionD := none, correctRaw := some "xyzabcdefg", hint := none, rationale := none }

/-- The quiz session: the `st.session_state` fields driving the Active
phase.  The dictionaries `answers`, `time_spent` and `submitted_q` are
modelled as total maps carrying their `.get` defaults (`None`, `0`,
`False`), and wall-clock instants (`time.time()`) are passed in
explicitly as rationals. -/
structure Session where
  questions : List Row
  index : Nat
  answers : Nat → Option String
  timeSpent : Nat → ℚ
  submitted : Nat → Bool
  timerPerQuestion : Option ℚ
  questionStartTime : Option ℚ
  score : Nat
  finished : Bool

/-- Pointwise dictionary update `d[k] = v`. -/
def updD {α : Type} (f : Nat → α) (k : Nat) (v : α) : Nat → α :=
  fun i => if i = k then v else f i

/-- Python truthiness of an answer value (`None` and `""` are falsy). -/
def ansTruthy : Option String → Bool
  | none => false
  | some t => !t.data.isEmpty

/-- Function `update_score` from `quiz_app.py`: `for idx in range(len(questions))`,
counting every stored answer that is truthy and grades correct — the
`submitted_q` map is not consulted. -/
def update_score (s : Session) : Session :=
  let sc := (List.range s.questions.length).foldl
    (fun sc idx =>
      match s.questions[idx]? with
      | some r => if ansTruthy (s.answers idx) && is_correct (s.answers idx) r.correctRaw
                  then sc + 1 else sc
      | none => sc) 0
  { s with score := sc }

/-- Function `save_time_state` from `quiz_app.py`: add `time.time() -
question_start_time` to the stored accumulation for the current index,
capping at `timer_per_question` when a timer is configured.
`question_start_time` itself is left untouched. -/
def save_time_state (s : Session) (now : ℚ) : Session :=
  match s.questionStartTime with
  | none => s
  | some start =>
    let elapsed := now - start
    let currentTotal := s.timeSpent s.index
    match s.timerPerQuestion with
    | none => { s with timeSpent := updD s.timeSpent s.index (currentTotal + elapsed) }
    | some cap => { s with timeSpent := updD s.timeSpent s.index (min cap (currentTotal + elapsed)) }

/-- Function `handle_navigation` from `quiz_app.py`: flush time, auto-save the radio
draft when the current index is unsubmitted, then move the pointer and
restart the clock.  `radioSel` is the current radio widget value
(`st.session_state.get(f"radio_{i}")`).  No range check is performed on
`newIndex`. -/
def handle_navigation (s : Session) (newIndex : Nat) (radioSel : Option String) (now : ℚ) :
    Session :=
  let s1 := save_time_state s now
  let s2 := if s1.submitted s1.index then s1
            else { s1 with answers := updD s1.answers s1.index radioSel }
  { s2 with index := newIndex, questionStartTime := some now }

/-- The Submit-button handler (guarded by `if not is_submitted` in the
page): flush time, lock the current selection, mark submitted, recompute
the score. -/
def submitAction (s : Session) (selected : Option String) (now : ℚ) : Session :=
  if s.submitted s.index then s
  else
    let s1 := save_time_state s now
    let s2 := { s1 with answers := updD s1.answers s1.index selected,
                        submitted := updD s1.submitted s1.index true }
    update_score s2

/-- The sidebar's remaining-time computation for timer mode: for a
submitted question the stored time, otherwise the capped accumulation
plus the running interval (with `question_start_time` initialised to the
current instant when unset, as the sidebar does). -/
def remainingOf (s : Session) (cap now : ℚ) : ℚ :=
  let ts := if s.submitted s.index then s.timeSpent s.index
            else min cap (s.timeSpent s.index + (now - (s.questionStartTime.getD now)))
  max 0 (cap - ts)

/-- The auto-action block at the bottom of the Active page: with a timer
configured, zero remaining time and an unsubmitted current question, cap
the stored time, lock the current radio selection as the final answer,
mark the question submitted and recompute the score.  The current index
is left unchanged. -/
def autoAction (s : Session) (radioSel : Option String) (now : ℚ) : Session :=
  match s.timerPerQuestion with
  | none => s
  | some cap =>
    if remainingOf s cap now ≤ 0 ∧ s.submitted s.index = false then
      update_score { s with
        timeSpent := updD s.timeSpent s.index cap,
        submitted := updD s.submitted s.index true,
        answers := updD s.answers s.index radioSel }
    else s

/-- Invariant carried by the `(best_match, best_match_score)` accumulator
of the substring pass: any recorded candidate is a present option whose
normalized text strictly contains, or is strictly contained in, the
normalized correct text. -/
def FuzzyInv (r : Row) (acc : Option Letter × ℚ) : Prop :=
  acc.1 = none ∨
  ∃ l t, acc.1 = some l ∧ r.option l = some t ∧
    normalize_text (some t) ≠ normalize_text r.correctRaw ∧
    (pyIn (normalize_text r.correctRaw) (normalize_text (some t)) = true ∨
     pyIn (normalize_text (some t)) (normalize_text r.correctRaw) = true)

/-- Python `str.split()` in the direct run-splitting style, used for the
specification-level restatement of `normalize_text`. -/
def wordsOf (l : List Char) : List (List Char) :=
  match l with
  | [] => []
  | c :: rest =>
    if isSp c then wordsOf rest
    else (c :: rest.takeWhile (fun x => !isSp x)) :: wordsOf (rest.dropWhile (fun x => !isSp x))
termination_by l.length
decreasing_by
  · simp
  · simp only [List.length_cons]
    refine Nat.lt_succ_of_le ?_
    induction rest with
    | nil => simp
    | cons a as iha =>
      rw [List.dropWhile_cons]
      split
      · exact Nat.le_trans iha (Nat.le_succ _)
      · simp

/-- Section 4.1's pipeline as amended (text conversion, trim, lowercase, collapse
whitespace runs to single spaces, strip trailing `. , ; :` — and no
quote-stripping step), written with the direct run-splitter `wordsOf`. -/
def normalizeSpec (c : Cell) : String :=
  match c with
  | none => ""
  | some s => ⟨rstripPunct (joinSp (wordsOf ((pyStrip s.data).map Char.toLower)))⟩

/-- Section 4.6's `computeScore` exactly as the specification words it: count of
indices `idx` with `idx ∈ submitted` and `isCorrect(selectedAnswer[idx],
items[idx])`. -/
def computeScoreSpec (s : Session) : Nat :=
  ((List.range s.questions.length).filter
    (fun idx => s.submitted idx && is_correct (s.answers idx)
       (match s.questions[idx]? with | some r => r.correctRaw | none => none))).length

/-- Record with only options A and B present and correct cell `"C"`. -/
def rowABC : Row :=
  { question := none, optionA := some "Paris", optionB := some "Rome"
    optionC := none, optionD := none, correctRaw := some "C", hint := none, rationale := none }

/-- Record whose option A text `"pq"` is a proper substring of the
correct cell `"pqrs"`. -/
def rowPQ : Row :=
  { question := none, optionA := some "pq", optionB := none
    optionC := none, optionD := none, correctRaw := some "pqrs", hint := none, rationale := none }

/-- Model of `pandas.Series.get(f"Option {letter}", default)` on a loaded row: the
label is always present (`read_quiz_df` requires all four option
columns), so the cell value itself is returned — a `NaN` cell included —
and the `default` argument is never used. -/
def rowGetOption (r : Row) (l : Letter) (_dflt : String) : String :=
  cellStr (r.option l)

/-- The correct-answer portion of the incorrect/timed-out feedback
(`quiz_app.py` lines 503–510 and 584–591): with a resolvable letter show
`f"{corr_let}: {corr_txt}"`, else show the raw `Correct Answer` cell. -/
def feedbackCorrectText (r : Row) : String :=
  match find_correct_letter r with
  | some l => letterStr l ++ ": " ++ rowGetOption r l (cellStr r.correctRaw)
  | none => cellStr r.correctRaw

/-- Fresh 3-question session with a 10-second timer, question 0 open since
instant 0. -/
def sessTimer : Session :=
  { questions := [rowPR, rowPR, rowPR], index := 0, answers := fun _ => none,
    timeSpent := fun _ => 0, submitted := fun _ => false, timerPerQuestion := some 10,
    questionStartTime := some 0, score := 0, finished := false }

/-- Fresh 2-question session in "No timer" mode, question 0 open since
instant 0. -/
def sessNoTimer : Session :=
  { questions := [rowPR, rowPR], index := 0, answers := fun _ => none,
    timeSpent := fun _ => 0, submitted := fun _ => false, timerPerQuestion := none,
    questionStartTime := some 0, score := 0, finished := false }

/-- Three-question session used for navigation counterexamples. -/
def sessNav : Session :=
  { questions := [rowPR, rowPR, rowPR], index := 0, answers := fun _ => none,
    timeSpent := fun _ => 0, submitted := fun _ => false, timerPerQuestion := some 10,
    questionStartTime := some 0, score := 0, finished := false }

/-- Session whose question 0 is already submitted. -/
def sessSub : Session :=
  { questions := [rowPR, rowPR, rowPR], index := 0,
    answers := fun i => if i = 0 then some (selDisplay Letter.B "Rome") else none,
    timeSpent := fun _ => 0, submitted := fun i => i == 0, timerPerQuestion := some 10,
    questionStartTime := some 0, score := 1, finished := false }

/-- One-question session where question 0 holds a correct DRAFT answer (stored
but never submitted). -/
def sessDraft : Session :=
  { questions := [rowPR], index := 0,
    answers := fun i => if i = 0 then some (selDisplay Letter.B "Rome") else none,
    timeSpent := fun _ => 0, submitted := fun _ => false, timerPerQuestion := none,
    questionStartTime := some 0, score := 0, finished := false }

/-!  Supporting lemmas, followed by the per-claim theorems and their
witnesses and counterexamples. -/

example : extract_letter (some "A") = some Letter.A := by decide
example : extract_letter (some "a.") = some Letter.A := by decide
example : extract_letter (some "Option A:") = some Letter.A := by decide
example : extract_letter (some "Apple") = some Letter.A := by decide
example : extract_letter (some "Rome") = none := by decide
example : normalize_text (some "  Hello   WORLD., ") = "hello world" := by decide
example : normalize_text (some "\"abc\"") = "\"abc\"" := by decide

example : find_correct_letter rowPR = some Letter.B := by decide
example : is_correct (some (selDisplay .B "Rome")) rowPR.correctRaw = true := by decide
example : is_correct (some (selDisplay .A "Paris")) rowPR.correctRaw = false := by decide

example : extract_letter rowRome.correctRaw = none := by decide
example : exactPass rowRome = some Letter.B := by decide
example : find_correct_letter rowRome = some Letter.B := by decide
example : is_correct (some (selDisplay .B "Rome.")) rowRome.correctRaw = true := by decide

example : extract_letter rowFuzz.correctRaw = none := by decide
example : exactPass rowFuzz = none := by decide
example : is_correct (some (selDisplay .A "xyzabcdefgh")) rowFuzz.correctRaw = false := by decide

/-- Evaluation of the substring pass on `rowFuzz`: the correct text is a
10-of-11-character prefix of option A's text, score `10/11 > 0.9`. -/
theorem rowFuzz_find : find_correct_letter rowFuzz = some Letter.A := by
  have hx : extract_letter rowFuzz.correctRaw = none := by decide
  have he : exactPass rowFuzz = none := by decide
  have hno : normalize_text (some "xyzabcdefgh") = "xyzabcdefgh" := by decide
  have hnc : normalize_text (some "xyzabcdefg") = "xyzabcdefg" := by decide
  have hin : pyIn "xyzabcdefg" "xyzabcdefgh" = true := by decide
  have hl1 : ("xyzabcdefg" : String).length = 10 := by decide
  have hl2 : ("xyzabcdefgh" : String).length = 11 := by decide
  have hfz : fuzzyPass rowFuzz = (some Letter.A, (10 : ℚ) / 11) := by
    unfold fuzzyPass fuzzyStep
    simp only [Row.option, rowFuzz, hno, hnc, hin, hl1, hl2]
    norm_num
  unfold find_correct_letter
  rw [hx, he, hfz]
  norm_num

theorem update_score_timeSpent (s : Session) : (update_score s).timeSpent = s.timeSpent := rfl

theorem update_score_index (s : Session) : (update_score s).index = s.index := rfl

theorem update_score_submitted (s : Session) : (update_score s).submitted = s.submitted := rfl

theorem update_score_answers (s : Session) : (update_score s).answers = s.answers := rfl

theorem update_score_start (s : Session) :
    (update_score s).questionStartTime = s.questionStartTime := rfl

theorem update_score_timer (s : Session) :
    (update_score s).timerPerQuestion = s.timerPerQuestion := rfl

theorem update_score_questions (s : Session) :
    (update_score s).questions = s.questions := rfl

theorem ldrop_cons_sp {c : Char} {l : List Char} (h : isSp c = true) :
    ldrop (c :: l) = ldrop l := by
  simp [ldrop, List.dropWhile_cons, h]

theorem ldrop_cons_not_sp {c : Char} {l : List Char} (h : isSp c = false) :
    ldrop (c :: l) = c :: l := by
  simp [ldrop, List.dropWhile_cons, h]

theorem ldrop_idem (l : List Char) : ldrop (ldrop l) = ldrop l := by
  induction l with
  | nil => rfl
  | cons c cs ih =>
    cases h : isSp c with
    | true => rw [ldrop_cons_sp h]; exact ih
    | false => rw [ldrop_cons_not_sp h, ldrop_cons_not_sp h]

theorem rdrop_idem (l : List Char) : rdrop (rdrop l) = rdrop l := by
  unfold rdrop
  rw [List.reverse_reverse]
  have : List.dropWhile isSp (List.dropWhile isSp l.reverse) =
      List.dropWhile isSp l.reverse := ldrop_idem l.reverse
  rw [this]

theorem rdrop_prefix (l : List Char) : rdrop l <+: l := by
  unfold rdrop
  have h : List.dropWhile isSp l.reverse <:+ l.reverse := List.dropWhile_suffix isSp
  have := List.reverse_prefix.mpr h
  simpa using this

theorem ldrop_head_not_sp {l : List Char} {c : Char} {cs : List Char}
    (h : ldrop l = c :: cs) : isSp c = false := by
  have := List.head?_dropWhile_not isSp l
  unfold ldrop at h
  rw [h] at this
  simpa using this

/-- The head (if any) of a fully stripped list is not whitespace, so a
second leading strip is a no-op. -/
theorem ldrop_pyStrip (l : List Char) : ldrop (pyStrip l) = pyStrip l := by
  unfold pyStrip
  cases hm : rdrop (ldrop l) with
  | nil => rfl
  | cons c cs =>
    have hpre : rdrop (ldrop l) <+: ldrop l := rdrop_prefix (ldrop l)
    rw [hm] at hpre
    obtain ⟨t, ht⟩ := hpre
    have hld : ldrop l = c :: (cs ++ t) := by rw [← ht]; simp
    have hc : isSp c = false := ldrop_head_not_sp hld
    rw [ldrop_cons_not_sp hc]

theorem pyStrip_idem (l : List Char) : pyStrip (pyStrip l) = pyStrip l := by
  show rdrop (ldrop (pyStrip l)) = pyStrip l
  rw [ldrop_pyStrip]
  show rdrop (rdrop (ldrop l)) = rdrop (ldrop l)
  exact rdrop_idem (ldrop l)

theorem pyStrip_cons_sp {c : Char} {l : List Char} (h : isSp c = true) :
    pyStrip (c :: l) = pyStrip l := by
  unfold pyStrip
  rw [ldrop_cons_sp h]

/-- Function `normalize_text` begins with a strip, so feeding it pre-stripped text
changes nothing. -/
theorem normList_pyStrip (l : List Char) : normList (pyStrip l) = normList l := by
  unfold normList
  rw [pyStrip_idem]

theorem normList_cons_sp {c : Char} {l : List Char} (h : isSp c = true) :
    normList (c :: l) = normList l := by
  unfold normList
  rw [pyStrip_cons_sp h]

theorem exactPass_eq_none {r : Row} (h : exactPass r = none) :
    ∀ l, exactMatches r l = false := by
  intro l
  unfold exactPass at h
  split at h
  · cases h
  · split at h
    · cases h
    · split at h
      · cases h
      · split at h
        · cases h
        · cases l <;> simp_all

theorem exactPass_eq_some {r : Row} {l : Letter} (h : exactPass r = some l) :
    exactMatches r l = true := by
  unfold exactPass at h
  split at h
  · cases h; assumption
  · split at h
    · cases h; assumption
    · split at h
      · cases h; assumption
      · split at h
        · cases h; assumption
        · cases h

theorem exactMatches_eq_of_true {r : Row} {l : Letter} {t : String}
    (h : exactMatches r l = true) (ho : r.option l = some t) :
    normalize_text (some t) = normalize_text r.correctRaw := by
  unfold exactMatches at h
  rw [ho] at h
  simpa using h

theorem exactMatches_ne_of_false {r : Row} {l : Letter} {t : String}
    (h : exactMatches r l = false) (ho : r.option l = some t) :
    normalize_text (some t) ≠ normalize_text r.correctRaw := by
  unfold exactMatches at h
  rw [ho] at h
  simpa using h

theorem fuzzyStep_inv {r : Row} {acc : Option Letter × ℚ} (l : Letter)
    (hne : ∀ l t, r.option l = some t →
      normalize_text (some t) ≠ normalize_text r.correctRaw)
    (h : FuzzyInv r acc) : FuzzyInv r (fuzzyStep r acc l) := by
  unfold fuzzyStep
  cases ho : r.option l with
  | none => exact h
  | some t =>
    simp only
    split
    · split
      · exact Or.inr ⟨l, t, rfl, ho, hne l t ho, Or.inl (by assumption)⟩
      · exact h
    · split
      · split
        · exact Or.inr ⟨l, t, rfl, ho, hne l t ho, Or.inr (by assumption)⟩
        · exact h
      · exact h

theorem dropWhile_len_le {α : Type} (p : α → Bool) (l : List α) :
    (l.dropWhile p).length ≤ l.length := by
  induction l with
  | nil => simp
  | cons c cs ih =>
    rw [List.dropWhile_cons]
    split
    · exact Nat.le_trans ih (Nat.le_succ _)
    · simp

theorem wordsAux_ne_nil_acc : ∀ (rest acc : List Char), acc ≠ [] →
    wordsAux rest acc =
      (acc.reverse ++ rest.takeWhile (fun x => !isSp x)) ::
        wordsAux (rest.dropWhile (fun x => !isSp x)) [] := by
  intro rest
  induction rest with
  | nil =>
    intro acc hacc
    simp [wordsAux, List.isEmpty_iff, hacc]
  | cons c cs ih =>
    intro acc hacc
    cases h : isSp c with
    | true =>
      rw [show wordsAux (c :: cs) acc = acc.reverse :: wordsAux cs [] by
        simp [wordsAux, h, List.isEmpty_iff, hacc]]
      have h2 : wordsAux (c :: cs) ([] : List Char) = wordsAux cs [] := by
        simp [wordsAux, h]
      simp [List.takeWhile_cons, List.dropWhile_cons, h, h2]
    | false =>
      rw [show wordsAux (c :: cs) acc = wordsAux cs (c :: acc) by
        simp [wordsAux, h]]
      rw [ih (c :: acc) (by simp)]
      simp [List.takeWhile_cons, List.dropWhile_cons, h]

theorem wordsAux_eq_wordsOf_le : ∀ (n : Nat) (l : List Char), l.length ≤ n →
    wordsAux l [] = wordsOf l := by
  intro n
  induction n with
  | zero =>
    intro l hl
    have : l = [] := by cases l with
      | nil => rfl
      | cons c cs => simp at hl
    subst this
    rw [wordsOf]
    rfl
  | succ n ih =>
    intro l hl
    match l with
    | [] => rw [wordsOf]; rfl
    | c :: cs =>
      cases h : isSp c with
      | true =>
        have h1 : wordsAux (c :: cs) ([] : List Char) = wordsAux cs [] := by
          simp [wordsAux, h]
        have h2 : wordsOf (c :: cs) = wordsOf cs := by
          rw [wordsOf]; simp [h]
        rw [h1, h2]
        exact ih cs (by simpa using Nat.le_of_succ_le_succ hl)
      | false =>
        have h1 : wordsAux (c :: cs) ([] : List Char) = wordsAux cs [c] := by
          simp [wordsAux, h]
        have h2 : wordsOf (c :: cs) =
            (c :: cs.takeWhile (fun x => !isSp x)) ::
              wordsOf (cs.dropWhile (fun x => !isSp x)) := by
          rw [wordsOf]; simp [h]
        rw [h1, h2, wordsAux_ne_nil_acc cs [c] (by simp)]
        have hlen : (cs.dropWhile (fun x => !isSp x)).length ≤ n := by
          have := dropWhile_len_le (fun x => !isSp x) cs
          have hcs : cs.length ≤ n := by simpa using Nat.le_of_succ_le_succ hl
          omega
        rw [ih _ hlen]
        simp

theorem wordsAux_eq_wordsOf (l : List Char) : wordsAux l [] = wordsOf l :=
  wordsAux_eq_wordsOf_le l.length l (Nat.le_refl _)

/-- Python `needle in hay` is always true for an empty needle. -/
theorem pyIn_of_empty_needle {n h : String} (hn : n.data = []) : pyIn n h = true := by
  unfold pyIn
  rw [hn]
  cases hd : h.data with
  | nil => rfl
  | cons c cs => simp [List.tails_cons]

theorem fuzzyPass_inv {r : Row}
    (hne : ∀ l t, r.option l = some t →
      normalize_text (some t) ≠ normalize_text r.correctRaw) :
    FuzzyInv r (fuzzyPass r) := by
  unfold fuzzyPass
  exact fuzzyStep_inv .D hne (fuzzyStep_inv .C hne (fuzzyStep_inv .B hne
    (fuzzyStep_inv .A hne (Or.inl rfl))))

theorem save_time_state_index (s : Session) (now : ℚ) :
    (save_time_state s now).index = s.index := by
  unfold save_time_state
  split
  · rfl
  · split <;> rfl

theorem save_time_state_answers (s : Session) (now : ℚ) :
    (save_time_state s now).answers = s.answers := by
  unfold save_time_state
  split
  · rfl
  · split <;> rfl

theorem save_time_state_submitted (s : Session) (now : ℚ) :
    (save_time_state s now).submitted = s.submitted := by
  unfold save_time_state
  split
  · rfl
  · split <;> rfl

theorem save_time_state_start (s : Session) (now : ℚ) :
    (save_time_state s now).questionStartTime = s.questionStartTime := by
  unfold save_time_state
  split
  · rfl
  · split <;> rfl

theorem save_time_state_questions (s : Session) (now : ℚ) :
    (save_time_state s now).questions = s.questions := by
  unfold save_time_state
  split
  · rfl
  · split <;> rfl

/-- C4: the delimiter requirement of `extract_letter`'s second rule is
vacuous (the regex quantifier is `*`, not `+`), so `"Apple"` yields `'A'`
where the specified behaviour is none; the three specified positive
examples do hold. -/
theorem quiz_c4_star_quantifier :
    extract_letter (some "A") = some Letter.A ∧
    extract_letter (some "a.") = some Letter.A ∧
    extract_letter (some "Option A:") = some Letter.A ∧
    extract_letter (some "Apple") = some Letter.A := by
  refine ⟨by decide, by decide, by decide, by decide⟩

/-- C7 counterexample: `normalize_text` performs no quote-stripping, so an
input enclosed in matching double quotes does not normalize to the same
string as the unquoted input. -/
theorem quiz_c7_cex :
    normalize_text (some "\"abc\"") = "\"abc\"" ∧
    normalize_text (some "abc") = "abc" ∧
    normalize_text (some "\"abc\"") ≠ normalize_text (some "abc") := by
  refine ⟨by decide, by decide, by decide⟩

/-- C7 (amended): `normalize_text` is exactly the pipeline conversion →
trim → lowercase → collapse internal whitespace runs to single spaces →
strip trailing `. , ; :`, with no quote-stripping step, here checked
against the independently written run-splitting formulation
`normalizeSpec`. -/
theorem quiz_c7_amended (c : Cell) : normalize_text c = normalizeSpec c := by
  cases c with
  | none => rfl
  | some s =>
    show (⟨normList s.data⟩ : String) = ⟨rstripPunct (joinSp (wordsOf ((pyStrip s.data).map Char.toLower)))⟩
    unfold normList
    rw [wordsAux_eq_wordsOf]

/-- C10 counterexample: on a record with only options A and B and
`correctRaw = "C"`, the resolver returns the absent letter C, but the
feedback then renders the `NaN` cell as `"C: nan"` rather than falling
back to the raw correct-answer text (which would give `"C: C"`): the
`.get` default is dead because the option columns always exist. -/
theorem quiz_c10_cex :
    find_correct_letter rowABC = some Letter.C ∧
    rowABC.option Letter.C = none ∧
    feedbackCorrectText rowABC = "C: nan" ∧
    feedbackCorrectText rowABC ≠ "C: " ++ cellStr rowABC.correctRaw := by
  refine ⟨by decide, rfl, by decide, by decide⟩

/-- C10 (amended): whenever a letter is extractable from `correctRaw`,
`find_correct_letter` returns it immediately, without checking that the
option exists; and when that option is an absent (`NaN`) cell, the
feedback renders `"{letter}: nan"` (the `.get` default — the raw text —
is never used, because loaded rows always carry all four option
columns). -/
theorem quiz_c10_amended (r : Row) (l : Letter)
    (hx : extract_letter r.correctRaw = some l) :
    find_correct_letter r = some l ∧
    (r.option l = none → feedbackCorrectText r = letterStr l ++ ": nan") := by
  have hf : find_correct_letter r = some l := by
    unfold find_correct_letter
    rw [hx]
  refine ⟨hf, fun ho => ?_⟩
  unfold feedbackCorrectText rowGetOption
  rw [hf]
  show letterStr l ++ ": " ++ cellStr (r.option l) = letterStr l ++ ": nan"
  rw [ho]
  cases l <;> rfl

/-- C10 witness: the amended theorem applied to `rowABC`. -/
theorem quiz_c10_witness :
    find_correct_letter rowABC = some Letter.C ∧
    feedbackCorrectText rowABC = letterStr Letter.C ++ ": nan" :=
  ⟨(quiz_c10_amended rowABC Letter.C (by decide)).1,
   (quiz_c10_amended rowABC Letter.C (by decide)).2 rfl⟩

/-- C8: the two length-ratio divisions inside the substring fallback of
`find_correct_letter` are only evaluated on nonzero denominators: when
the exact pass has failed, a contained normalized text forces its
container to be nonempty (an empty text on both sides would have been an
exact match). -/
theorem quiz_c8_division_guard (r : Row) (l : Letter) (t : String)
    (hep : exactPass r = none) (ho : r.option l = some t) :
    (pyIn (normalize_text r.correctRaw) (normalize_text (some t)) = true →
       0 < (normalize_text (some t)).length) ∧
    (pyIn (normalize_text r.correctRaw) (normalize_text (some t)) = false →
     pyIn (normalize_text (some t)) (normalize_text r.correctRaw) = true →
       0 < (normalize_text r.correctRaw).length) := by
  constructor
  · intro hin
    by_contra h0
    have hdata : (normalize_text (some t)).data = [] :=
      List.eq_nil_of_length_eq_zero (Nat.eq_zero_of_not_pos h0)
    have hc : (normalize_text r.correctRaw).data = [] := by
      unfold pyIn at hin
      rw [hdata] at hin
      cases hcd : (normalize_text r.correctRaw).data with
      | nil => rfl
      | cons c cs => rw [hcd] at hin; simp [List.isPrefixOf] at hin
    have heq : normalize_text (some t) = normalize_text r.correctRaw :=
      String.ext (hdata.trans hc.symm)
    exact exactMatches_ne_of_false (exactPass_eq_none hep l) ho heq
  · intro hnin hin2
    by_contra h0
    have hc : (normalize_text r.correctRaw).data = [] :=
      List.eq_nil_of_length_eq_zero (Nat.eq_zero_of_not_pos h0)
    have : pyIn (normalize_text r.correctRaw) (normalize_text (some t)) = true :=
      pyIn_of_empty_needle hc
    rw [hnin] at this
    cases this

/-- C8 witness: on `rowPQ` the option text `"pq"` is a proper substring of
the correct text `"pqrs"`, and the divisor — the correct text's length —
is positive. -/
theorem quiz_c8_witness : 0 < (normalize_text rowPQ.correctRaw).length :=
  (quiz_c8_division_guard rowPQ Letter.A "pq" (by decide) rfl).2 (by decide) (by decide)

/-- C1 counterexample: on `rowFuzz` no letter is extractable and no present
option's normalized text equals the normalized correct text, yet
`find_correct_letter` returns A (via the substring pass, score `10/11`)
instead of the claimed none. -/
theorem quiz_c1_cex :
    extract_letter rowFuzz.correctRaw = none ∧
    (letters.all fun l =>
      match rowFuzz.option l with
      | none => true
      | some t => !(normalize_text (some t) == normalize_text rowFuzz.correctRaw)) = true ∧
    find_correct_letter rowFuzz = some Letter.A :=
  ⟨by decide, by decide, rowFuzz_find⟩

/-- C1 (amended): with no extractable letter, `find_correct_letter` returns
the first exact normalized-text match in A→D order; when no option
matches exactly it does NOT return none outright — it falls back to the
substring pass, and any letter it then returns names a present option
whose normalized text strictly contains, or is strictly contained in,
the normalized correct text (accepted only above the 0.9 length-ratio
threshold). -/
theorem quiz_c1_amended (r : Row) (hx : extract_letter r.correctRaw = none) :
    (∀ l, exactPass r = some l → find_correct_letter r = some l) ∧
    (exactPass r = none →
      find_correct_letter r = none ∨
      ∃ l t, find_correct_letter r = some l ∧ r.option l = some t ∧
        normalize_text (some t) ≠ normalize_text r.correctRaw ∧
        (pyIn (normalize_text r.correctRaw) (normalize_text (some t)) = true ∨
         pyIn (normalize_text (some t)) (normalize_text r.correctRaw) = true)) := by
  constructor
  · intro l hep
    unfold find_correct_letter
    rw [hx, hep]
  · intro hep
    have hne : ∀ l t, r.option l = some t →
        normalize_text (some t) ≠ normalize_text r.correctRaw :=
      fun l t ho => exactMatches_ne_of_false (exactPass_eq_none hep l) ho
    have hinv := fuzzyPass_inv hne
    have hfind : find_correct_letter r =
        (match (fuzzyPass r).1 with
         | some l => if (fuzzyPass r).2 > (9 : ℚ) / 10 then some l else none
         | none => none) := by
      unfold find_correct_letter
      rw [hx, hep]
    cases hf : (fuzzyPass r).1 with
    | none =>
      left
      rw [hfind, hf]
    | some l =>
      rcases hinv with h0 | ⟨l', t, hl', ho, hne', hcont⟩
      · rw [hf] at h0; cases h0
      · rw [hf] at hl'
        injection hl' with hll
        subst hll
        by_cases hsc : (fuzzyPass r).2 > (9 : ℚ) / 10
        · right
          refine ⟨l, t, ?_, ho, hne', hcont⟩
          rw [hfind]
          simp only [hf]
          simp [hsc]
        · left
          rw [hfind]
          simp only [hf]
          simp [hsc]

/-- C1 witness: on `rowRome` (`correctRaw = "Rome"`, option B `"Rome."`) no
letter is extractable, the exact pass resolves B, and the first part of
the amended theorem yields `find_correct_letter = some B`. -/
theorem quiz_c1_witness : find_correct_letter rowRome = some Letter.B :=
  (quiz_c1_amended rowRome (by decide)).1 Letter.B (by decide)

/-- C5 counterexample: on `rowFuzz` the resolver returns A via the
substring pass, yet grading the selection `(A, optionText(A))` returns
false — `is_correct` only ever does the exact text comparison. -/
theorem quiz_c5_cex :
    find_correct_letter rowFuzz = some Letter.A ∧
    rowFuzz.option Letter.A = some "xyzabcdefgh" ∧
    is_correct (some (selDisplay Letter.A "xyzabcdefgh")) rowFuzz.correctRaw = false :=
  ⟨rowFuzz_find, rfl, by decide⟩

/-- C5 (amended): the grading verdict agrees with the resolved correct
letter whenever that letter was resolved by letter extraction or by the
exact-match pass; the substring-fallback path is excluded (there
`is_correct`, which only compares exact normalized texts, contradicts
the resolver). -/
theorem quiz_c5_amended (r : Row) (X : Letter) (t : String) (ho : r.option X = some t) :
    (extract_letter r.correctRaw = some X →
       is_correct (some (selDisplay X t)) r.correctRaw = true) ∧
    (extract_letter r.correctRaw = none → exactPass r = some X →
       is_correct (some (selDisplay X t)) r.correctRaw = true) := by
  constructor
  · intro hx
    cases X <;>
    · unfold is_correct
      simp only [hx]
      rfl
  · intro hx hep
    have heq : normalize_text (some t) = normalize_text r.correctRaw :=
      exactMatches_eq_of_true (exactPass_eq_some hep) ho
    have hred : is_correct (some (selDisplay X t)) r.correctRaw =
        (normalize_text (some (⟨pyStrip (' ' :: t.data)⟩ : String)) ==
          normalize_text r.correctRaw) := by
      cases X <;>
      · unfold is_correct
        simp only [hx]
        rfl
    rw [hred]
    have h1 : (⟨pyStrip (' ' :: t.data)⟩ : String) = ⟨pyStrip t.data⟩ := by
      rw [pyStrip_cons_sp (by decide)]
    have h2 : normalize_text (some (⟨pyStrip t.data⟩ : String)) = normalize_text (some t) := by
      show (⟨normList (pyStrip t.data)⟩ : String) = ⟨normList t.data⟩
      rw [normList_pyStrip]
    rw [h1, h2, heq]
    simp

/-- C5 witness: the amended theorem applied on both paths — letter path on
`rowPR` (correct cell `"B"`, selection `(B, "Rome")`) and exact-text path
on `rowRome` (correct cell `"Rome"`, selection `(B, "Rome.")`). -/
theorem quiz_c5_witness :
    is_correct (some (selDisplay Letter.B "Rome")) rowPR.correctRaw = true ∧
    is_correct (some (selDisplay Letter.B "Rome.")) rowRome.correctRaw = true :=
  ⟨(quiz_c5_amended rowPR Letter.B "Rome" rfl).1 (by decide),
   (quiz_c5_amended rowRome Letter.B "Rome." rfl).2 (by decide) (by decide)⟩

/-- C2 counterexample: timing out question 0 of a fresh 3-question session
locks it but leaves `index = 0`; it does not become 1. -/
theorem quiz_c2_cex :
    (autoAction sessTimer none 10).submitted 0 = true ∧
    (autoAction sessTimer none 10).index = 0 ∧
    (autoAction sessTimer none 10).index ≠ 1 := by
  have hr : remainingOf sessTimer 10 10 ≤ 0 := by
    unfold remainingOf sessTimer
    norm_num
  have hq : sessTimer.timerPerQuestion = some 10 := rfl
  have hsub : ∀ i, sessTimer.submitted i = false := fun _ => rfl
  have hidx : sessTimer.index = 0 := rfl
  refine ⟨?_, ?_, ?_⟩ <;>
    simp [autoAction, hq, hr, hsub, hidx, update_score_index,
      update_score_submitted, updD]

/-- C2 (amended): the timeout auto-action locks the current draft as the
final answer, marks the current question submitted and caps its stored
time at the timer duration, but leaves `currentIndex` unchanged — there
is no auto-advance. -/
theorem quiz_c2_amended (s : Session) (cap : ℚ) (sel : Option String) (now : ℚ)
    (hc : s.timerPerQuestion = some cap)
    (hr : remainingOf s cap now ≤ 0)
    (hs : s.submitted s.index = false) :
    (autoAction s sel now).index = s.index ∧
    (autoAction s sel now).submitted s.index = true ∧
    (autoAction s sel now).answers s.index = sel ∧
    (autoAction s sel now).timeSpent s.index = cap := by
  refine ⟨?_, ?_, ?_, ?_⟩ <;>
    simp [autoAction, hc, hr, hs, update_score_index, update_score_submitted,
      update_score_answers, update_score_timeSpent, updD]

/-- C2 witness: the amended theorem applied to `sessTimer` at instant 10. -/
theorem quiz_c2_witness :
    (autoAction sessTimer none 10).index = sessTimer.index ∧
    (autoAction sessTimer none 10).submitted sessTimer.index = true ∧
    (autoAction sessTimer none 10).answers sessTimer.index = none ∧
    (autoAction sessTimer none 10).timeSpent sessTimer.index = 10 :=
  quiz_c2_amended sessTimer 10 none 10 rfl
    (by unfold remainingOf sessTimer; norm_num) rfl

/-- C9 counterexample: `handle_navigation` performs no range check — asked
to navigate to index 5 of a 3-question session it simply sets the
pointer out of range instead of rejecting the call. -/
theorem quiz_c9_cex :
    sessNav.questions.length = 3 ∧
    (handle_navigation sessNav 5 none 0).index = 5 ∧
    ¬ (handle_navigation sessNav 5 none 0).index <
        (handle_navigation sessNav 5 none 0).questions.length := by
  refine ⟨rfl, rfl, ?_⟩
  intro h
  simp [handle_navigation, save_time_state, sessNav, updD] at h

/-- C9 (amended): neither guard fails loudly — `handle_navigation` always
sets `index` to whatever it is given (no range validation), and a draft
on an already-submitted index is silently skipped (the answer store is
left unchanged) rather than rejected. -/
theorem quiz_c9_amended (s : Session) (n : Nat) (sel : Option String) (now : ℚ) :
    (handle_navigation s n sel now).index = n ∧
    (s.submitted s.index = true → (handle_navigation s n sel now).answers = s.answers) := by
  constructor
  · rfl
  · intro hs
    have hsub : (save_time_state s now).submitted (save_time_state s now).index = true := by
      rw [save_time_state_submitted, save_time_state_index, hs]
    simp only [handle_navigation, hsub, reduceIte]
    exact save_time_state_answers s now

/-- C9 witness: navigating a session whose current question is submitted
leaves the answer store untouched while the pointer moves. -/
theorem quiz_c9_witness :
    (handle_navigation sessSub 2 none 0).index = 2 ∧
    (handle_navigation sessSub 2 none 0).answers = sessSub.answers :=
  ⟨(quiz_c9_amended sessSub 2 none 0).1,
   (quiz_c9_amended sessSub 2 none 0).2 rfl⟩

/-- C6 counterexample: a flush does not reset `question_start_time`, so the
submit-handler flush at instant 5 followed by the navigation flush at the
same instant adds the interval `[0, 5]` twice: the stored time becomes
10, not 5 ("No timer" mode, so no cap masks it). -/
theorem quiz_c6_cex :
    (submitAction sessNoTimer (some (selDisplay Letter.A "Paris")) 5).questionStartTime
        = some 0 ∧
    (submitAction sessNoTimer (some (selDisplay Letter.A "Paris")) 5).timeSpent 0 = 5 ∧
    (handle_navigation
        (submitAction sessNoTimer (some (selDisplay Letter.A "Paris")) 5) 1 none 5).timeSpent 0
      = 10 := by
  have hsub : ∀ i, sessNoTimer.submitted i = false := fun _ => rfl
  refine ⟨?_, ?_, ?_⟩ <;>
    norm_num [submitAction, handle_navigation, save_time_state, hsub,
      update_score_timeSpent, update_score_start, update_score_index,
      update_score_submitted, update_score_timer, update_score_questions,
      updD, sessNoTimer]

/-- C6 (amended): each flush adds `now - questionOpenedAt` to the stored
accumulation for the current index (clamped at the timer duration when a
timer is configured, unclamped otherwise) but leaves `questionOpenedAt`
unchanged — only navigation resets it, so consecutive flushes without an
intervening navigation re-add the same interval. -/
theorem quiz_c6_amended (s : Session) (now st : ℚ) (h : s.questionStartTime = some st) :
    (save_time_state s now).questionStartTime = some st ∧
    (save_time_state s now).timeSpent s.index =
      (match s.timerPerQuestion with
       | none => s.timeSpent s.index + (now - st)
       | some cap => min cap (s.timeSpent s.index + (now - st))) := by
  constructor
  · rw [save_time_state_start, h]
  · unfold save_time_state
    rw [h]
    cases s.timerPerQuestion <;> simp [updD]

/-- C6 witness: the amended theorem applied to `sessNoTimer` at instant 5
(unlimited mode: the flush stores `0 + (5 - 0)` and keeps the opening
instant 0). -/
theorem quiz_c6_witness :
    (save_time_state sessNoTimer 5).questionStartTime = some 0 ∧
    (save_time_state sessNoTimer 5).timeSpent sessNoTimer.index =
      sessNoTimer.timeSpent sessNoTimer.index + (5 - 0) :=
  quiz_c6_amended sessNoTimer 5 0 rfl

theorem foldl_count_eq {α : Type} (f : α → Bool) :
    ∀ (l : List α) (n : Nat),
      l.foldl (fun sc i => if f i then sc + 1 else sc) n = n + (l.filter f).length := by
  intro l
  induction l with
  | nil => intro n; simp
  | cons c cs ih =>
    intro n
    rw [List.foldl_cons, List.filter_cons]
    cases h : f c <;> simp [h, ih] <;> omega

/-- C3 counterexample: a session whose only question holds a correct DRAFT
answer (index 0 is not in the submitted set) gets score 1 from
`update_score`, while the §4.6 formula over the submitted set gives 0. -/
theorem quiz_c3_cex :
    sessDraft.submitted 0 = false ∧
    (update_score sessDraft).score = 1 ∧
    computeScoreSpec sessDraft = 0 := by
  refine ⟨rfl, by decide, by decide⟩

/-- C3 (amended): the computed score ignores the submitted set entirely: it
equals the number of indices holding a truthy stored answer — draft or
final — that grades correct. -/
theorem quiz_c3_amended (s : Session) (sub : Nat → Bool) :
    (update_score { s with submitted := sub }).score = (update_score s).score ∧
    (update_score s).score =
      ((List.range s.questions.length).filter
        (fun idx =>
          match s.questions[idx]? with
          | some r => ansTruthy (s.answers idx) && is_correct (s.answers idx) r.correctRaw
          | none => false)).length := by
  constructor
  · rfl
  · show (List.range s.questions.length).foldl
        (fun sc idx =>
          match s.questions[idx]? with
          | some r => if ansTruthy (s.answers idx) && is_correct (s.answers idx) r.correctRaw
                      then sc + 1 else sc
          | none => sc) 0 = _
    have hbody : (fun (sc : Nat) (idx : Nat) =>
        match s.questions[idx]? with
        | some r => if ansTruthy (s.answers idx) && is_correct (s.answers idx) r.correctRaw
                    then sc + 1 else sc
        | none => sc) =
        (fun sc idx =>
          if (match s.questions[idx]? with
              | some r => ansTruthy (s.answers idx) && is_correct (s.answers idx) r.correctRaw
              | none => false)
          then sc + 1 else sc) := by
      funext sc idx
      cases s.questions[idx]? <;> simp
    rw [hbody, foldl_count_eq]
    simp
